import Mathlib

/-!
Verification of the C_Pointer_Lab core component specification against the
repository's source (teaching notes with embedded C snippets).

The file shallowly embeds:

* `saferFreeImpl` / `SAFER_FREE` from `src/unnamed/part_012` (the "writing
  your own free" lesson), over an explicit machine state of pointer
  variables, an allocation map and a log of `free` calls;
* `evaluateStruct` with its static `operations` table (`add` / `sub`) from
  `src/unnamed/part_012` (the function-pointers-in-structs lesson);
* the Vector / GrowthPolicy / OperationTable-register core described in the
  spec, which the repository does not implement as code (only as prose and
  realloc teaching patterns); those definitions are marked
  `Modelled from the spec:`.
-/

namespace CPointerLab

/-! ## Memory model for `saferFreeImpl`

A pointer variable (a slot such as `main`'s `pi`) is identified by a `Nat`.
`env` gives the address currently held by each slot, with `0` playing the
role of `NULL`.  `allocated` tells which heap addresses are currently live,
and `frees` logs every address passed to `free`, in call order.  The
argument `pp` of `saferFreeImpl` is the address of a pointer variable or
`NULL`, modelled as `Option Nat`. -/

structure MemState where
  env : Nat → Nat
  allocated : Nat → Bool
  frees : List Nat

/-- Embedding of `saferFreeImpl` from `src/unnamed/part_012`:

```c
static inline void saferFreeImpl(void **pp)
{
    if (pp != NULL && *pp != NULL) {
        free(*pp);
        *pp = NULL;
    }
}
```

`pp = none` is a `NULL` handle reference; `pp = some slot` is `&p` for the
pointer variable `slot`.  `free(*pp)` removes the address from `allocated`
and appends it to the `frees` log; `*pp = NULL` writes `0` into the slot. -/
def saferFreeImpl (pp : Option Nat) (s : MemState) : MemState :=
  match pp with
  | none => s
  | some slot =>
    if s.env slot ≠ 0 then
      { env := fun v => if v = slot then 0 else s.env v
        allocated := fun a => if a = s.env slot then false else s.allocated a
        frees := s.frees ++ [s.env slot] }
    else s

/-! ## Operation table from `src/unnamed/part_012`

```c
typedef int (*fptrOperation)(int, int);
int add(int a, int b) { return a + b; }
int sub(int a, int b) { return a - b; }
typedef struct sOperation { char symbol; fptrOperation perform; } sOperation;
sOperation operations[] = { {'+', add}, {'-', sub} };
int evaluateStruct(char opcode, int num2, int num3) {
    for (int i = 0; i < 2; ++i) {
        if (operations[i].symbol == opcode)
            return operations[i].perform(num2, num3);
    }
    return 0;
}
```
-/

def add (a b : Int) : Int := a + b

def sub (a b : Int) : Int := a - b

structure sOperation where
  symbol : Char
  perform : Int → Int → Int

def operations : List sOperation := [⟨'+', add⟩, ⟨'-', sub⟩]

/-- The search loop of `evaluateStruct`: scan the table in index order,
call `perform` on the first entry whose `symbol` matches, and fall through
to `return 0` when no entry matches. -/
def evalLoop : List sOperation → Char → Int → Int → Int
  | [], _, _, _ => 0
  | op :: rest, opcode, a, b =>
    if op.symbol = opcode then op.perform a b else evalLoop rest opcode a b

def evaluateStruct (opcode : Char) (num2 num3 : Int) : Int :=
  evalLoop operations opcode num2 num3

/-! ## OperationTable `register` / `dispatch` (spec §4.5)

The repository's table is the fixed array `operations`; the spec's
`register` / `dispatch` API over such a table is not in `src/`. -/

/-- Modelled from the spec: `lookup(tag) -> Option<Callback>` over the
array-of-`sOperation` representation the code uses, scanning in index
order exactly as `evaluateStruct`'s loop does. -/
def lookup : List sOperation → Char → Option (Int → Int → Int)
  | [], _ => none
  | op :: rest, tag => if op.symbol = tag then some op.perform else lookup rest tag

inductive DispatchResult where
  | ok (v : Int)
  | unknownTag
  deriving DecidableEq

/-- Modelled from the spec: `dispatch(tag, args...) -> Result<ReturnValue,
UnknownTag>`: look the tag up and invoke the callback; `unknownTag` when
nothing is registered. -/
def dispatch (table : List sOperation) (tag : Char) (a b : Int) : DispatchResult :=
  match lookup table tag with
  | some cb => .ok (cb a b)
  | none => .unknownTag

/-- Modelled from the spec: `register(tag, callback)` "inserts or
overwrites the callback for `tag`" — overwrite the entries carrying `tag`
in place when one exists, otherwise append a fresh entry. -/
def register (tag : Char) (cb : Int → Int → Int) (table : List sOperation) :
    List sOperation :=
  if table.any (fun op => op.symbol = tag) then
    table.map (fun op => if op.symbol = tag then ⟨tag, cb⟩ else op)
  else table ++ [⟨tag, cb⟩]

/-- Fold a batch of later `register` calls over a table. -/
def registerAll (regs : List (Char × (Int → Int → Int))) (table : List sOperation) :
    List sOperation :=
  regs.foldl (fun acc e => register e.1 e.2 acc) table

/-! ## GrowthPolicy (spec §4.2) and Vector (spec §4.3) -/

/-- Modelled from the spec: `next_capacity(current, minimum)` of §4.2 —
the repository has no GrowthPolicy code.  If `current >= minimum` return
`current`; otherwise return `max(minimum, current * growth_factor)` with a
floor of one element's worth (`elemSize`) to avoid zero-capacity growth
loops.  Capacities are counted in elements here; `elemSize = 1` recovers
the per-element reading. -/
def nextCapacity (growthFactor elemSize current minimum : Nat) : Nat :=
  if minimum ≤ current then current
  else max minimum (max elemSize (current * growthFactor))

/-- Modelled from the spec: `Vector<T>` of §4.3 — the repository has no
Vector code, only the malloc/realloc teaching patterns it distills.
`elems` is the initialized prefix `[0, length)` (so `length = elems.length`)
and `capacity` counts elements; `capacity_bytes = capacity * element_size`. -/
structure Vector (α : Type) where
  elems : List α
  capacity : Nat

def Vector.length (v : Vector α) : Nat := v.elems.length

/-- Modelled from the spec: `new()` — capacity 0, length 0, no allocation. -/
def Vector.new : Vector α := ⟨[], 0⟩

inductive PushResult where
  | ok
  | allocationFailure
  deriving DecidableEq

/-- Modelled from the spec: `push(value)` of §4.3.  `alloc newCap` is the
host allocator's verdict on the resize request (the spec only assumes it
"reports failure rather than crashing").  If there is room, write the
value at index `length` and increment `length`; otherwise grow to
`next_capacity(capacity, length + 1)`; when the allocator refuses, return
`AllocationFailure` with the vector unchanged, mirroring the notes'
realloc temp-pointer pattern (`int *tmp = realloc(p, newsz); if (tmp) p = tmp;`). -/
def Vector.push (alloc : Nat → Bool) (v : Vector α) (x : α) :
    PushResult × Vector α :=
  if v.length < v.capacity then (.ok, ⟨v.elems ++ [x], v.capacity⟩)
  else
    let newCap := nextCapacity 2 1 v.capacity (v.length + 1)
    if alloc newCap then (.ok, ⟨v.elems ++ [x], newCap⟩)
    else (.allocationFailure, v)

/-- Modelled from the spec: bounds-checked `get(index)`; `none` is the
`IndexOutOfBounds` outcome (out-of-range access never reads adjacent
memory). -/
def Vector.get (v : Vector α) (i : Nat) : Option α := v.elems[i]?

/-- Modelled from the spec: `pop()` of §4.3 — `none` on an empty vector;
otherwise decrement `length` and move out the last element.  Capacity is
never shrunk. -/
def Vector.pop (v : Vector α) : Option α × Vector α :=
  if v.elems.isEmpty then (none, v)
  else (v.elems.getLast?, ⟨v.elems.dropLast, v.capacity⟩)

/-- A whole sequence of `push` calls, oldest first. -/
def Vector.pushSeq (alloc : Nat → Bool) (v : Vector α) (xs : List α) : Vector α :=
  xs.foldl (fun acc x => (acc.push alloc x).2) v

/-! ## Concrete states used by the witnesses -/

/-- Slot `0` holds the live address `7`; every other slot is `NULL`. -/
def demoState : MemState :=
  { env := fun v => if v = 0 then 7 else 0
    allocated := fun a => a == 7
    frees := [] }

/-- Every pointer variable is `NULL`. -/
def nullState : MemState :=
  { env := fun _ => 0, allocated := fun _ => false, frees := [] }

/-- Slots `0` and `1` alias the same live address `7`. -/
def aliasState : MemState :=
  { env := fun v => if v ≤ 1 then 7 else 0
    allocated := fun a => a == 7
    frees := [] }

/-! ## Theorems: SafeHandle (`saferFreeImpl` / `SAFER_FREE`) -/

/-- Releasing through a slot that already holds `NULL` changes nothing. -/
lemma saferFree_noop (s : MemState) (slot : Nat) (h : s.env slot = 0) :
    saferFreeImpl (some slot) s = s := by
  simp [saferFreeImpl, h]

/-- C1: if the referenced pointer variable is non-null, `saferFreeImpl`
nulls the variable, deallocates the pointed-to address and appends exactly
one `free` of it to the log; a second call on the same variable is then a
no-op (so two calls in a row free at most once and never touch freed
memory); if the variable is already null, the call changes nothing. -/
theorem saferFree_release_correct (s : MemState) (slot : Nat) :
    (s.env slot = 0 → saferFreeImpl (some slot) s = s) ∧
    (s.env slot ≠ 0 →
      (saferFreeImpl (some slot) s).env slot = 0 ∧
      (saferFreeImpl (some slot) s).frees = s.frees ++ [s.env slot] ∧
      (saferFreeImpl (some slot) s).allocated (s.env slot) = false ∧
      saferFreeImpl (some slot) (saferFreeImpl (some slot) s) =
        saferFreeImpl (some slot) s) := by
  constructor
  · intro h
    simp [saferFreeImpl, h]
  · intro h
    have hfst : saferFreeImpl (some slot) s =
        { env := fun v => if v = slot then 0 else s.env v
          allocated := fun a => if a = s.env slot then false else s.allocated a
          frees := s.frees ++ [s.env slot] } := by
      simp [saferFreeImpl, h]
    refine ⟨by rw [hfst]; simp, by rw [hfst], by rw [hfst]; simp, ?_⟩
    exact saferFree_noop _ _ (by rw [hfst]; simp)

theorem saferFree_release_correct_witness :
    (nullState.env 0 = 0 ∧ saferFreeImpl (some 0) nullState = nullState) ∧
    (demoState.env 0 ≠ 0 ∧
      ((saferFreeImpl (some 0) demoState).env 0 = 0 ∧
       (saferFreeImpl (some 0) demoState).frees = demoState.frees ++ [demoState.env 0] ∧
       (saferFreeImpl (some 0) demoState).allocated (demoState.env 0) = false ∧
       saferFreeImpl (some 0) (saferFreeImpl (some 0) demoState) =
         saferFreeImpl (some 0) demoState)) :=
  ⟨⟨by decide, (saferFree_release_correct nullState 0).1 (by decide)⟩,
   ⟨by decide, (saferFree_release_correct demoState 0).2 (by decide)⟩⟩

/-- C9: `saferFreeImpl` is total and guarded — a `NULL` handle reference
(`pp = none`) leaves the state untouched, and whenever every referenced
slot is already `NULL` the call is the identity; consequently the `free`
log can change only when `pp` names a slot whose pointer is non-null. -/
theorem saferFree_null_guard (pp : Option Nat) (s : MemState) :
    saferFreeImpl none s = s ∧
    ((∀ t, pp = some t → s.env t = 0) → saferFreeImpl pp s = s) ∧
    ((saferFreeImpl pp s).frees ≠ s.frees → ∃ t, pp = some t ∧ s.env t ≠ 0) := by
  refine ⟨rfl, ?_, ?_⟩
  · intro h
    match pp with
    | none => rfl
    | some t => simp [saferFreeImpl, h t rfl]
  · intro h
    match pp with
    | none => exact absurd rfl h
    | some t =>
      by_cases h0 : s.env t = 0
      · exact absurd (by simp [saferFreeImpl, h0]) h
      · exact ⟨t, rfl, h0⟩

theorem saferFree_null_guard_witness :
    ((∀ t, (some 0 : Option Nat) = some t → nullState.env t = 0) ∧
      saferFreeImpl (some 0) nullState = nullState) ∧
    ((saferFreeImpl (some 0) demoState).frees ≠ demoState.frees ∧
      ∃ t, (some 0 : Option Nat) = some t ∧ demoState.env t ≠ 0) :=
  ⟨⟨fun t h => by cases h; decide,
    (saferFree_null_guard (some 0) nullState).2.1 (fun t h => by cases h; decide)⟩,
   ⟨by decide, (saferFree_null_guard (some 0) demoState).2.2 (by decide)⟩⟩

/-- C10: a release writes only through the referenced slot — every other
pointer variable keeps its value, so an alias `b` of the freed address
still holds it after `SAFER_FREE(a)`, while `a` itself is nulled. -/
theorem saferFree_frame (s : MemState) (a b : Nat) (hab : b ≠ a) :
    (saferFreeImpl (some a) s).env b = s.env b ∧
    (s.env a ≠ 0 → (saferFreeImpl (some a) s).env a = 0) := by
  constructor
  · by_cases h0 : s.env a ≠ 0
    · simp [saferFreeImpl, h0, hab]
    · simp only [saferFreeImpl, if_neg h0]
  · intro h0
    simp [saferFreeImpl, h0]

theorem saferFree_frame_witness :
    ((1 : Nat) ≠ 0 ∧ aliasState.env 0 ≠ 0) ∧
    ((saferFreeImpl (some 0) aliasState).env 1 = aliasState.env 1 ∧
     (saferFreeImpl (some 0) aliasState).env 0 = 0 ∧
     aliasState.env 1 = 7) :=
  ⟨⟨by decide, by decide⟩,
   ⟨(saferFree_frame aliasState 0 1 (by decide)).1,
    (saferFree_frame aliasState 0 1 (by decide)).2 (by decide),
    by decide⟩⟩

/-! ## Theorems: operation table (`evaluateStruct`, `register`/`dispatch`) -/

/-- C3 counterexample: `'x'` is registered in neither table entry, yet
`evaluateStruct('x', 5, 6)` returns the plain `int` `0` — exactly the value
an ordinary successful dispatch (`'+'` on `3` and `-3`) also returns — so
the unregistered case is reported as an ordinary return value, not as a
distinguished `UnknownTag` error. -/
theorem evaluateStruct_unknown_no_error :
    ('x' ≠ '+' ∧ 'x' ≠ '-') ∧
    evaluateStruct 'x' 5 6 = 0 ∧
    evaluateStruct 'x' 5 6 = evaluateStruct '+' 3 (-3) := by
  decide

/-- C3 amended: for every opcode registered in neither entry of the
`operations` table, `evaluateStruct` falls through its loop and returns the
ordinary value `0` (and, being a pure function, performs no side effect);
no `UnknownTag`-style error is surfaced. -/
theorem evaluateStruct_unregistered_returns_zero (opcode : Char) (a b : Int)
    (h1 : opcode ≠ '+') (h2 : opcode ≠ '-') :
    evaluateStruct opcode a b = 0 := by
  simp [evaluateStruct, evalLoop, operations, Ne.symm h1, Ne.symm h2]

theorem evaluateStruct_unregistered_returns_zero_witness :
    ('q' ≠ '+' ∧ 'q' ≠ '-') ∧ evaluateStruct 'q' 1 2 = 0 :=
  ⟨⟨by decide, by decide⟩,
   evaluateStruct_unregistered_returns_zero 'q' 1 2 (by decide) (by decide)⟩

/-- An overwrite-in-place pass resolves the overwritten tag to the new
callback, provided some entry carried the tag. -/
lemma lookup_map_overwrite (t : List sOperation) (tag : Char)
    (cb : Int → Int → Int) (h : t.any (fun op => op.symbol = tag) = true) :
    lookup (t.map (fun op => if op.symbol = tag then ⟨tag, cb⟩ else op)) tag =
      some cb := by
  induction t with
  | nil => simp at h
  | cons op rest ih =>
    by_cases hs : op.symbol = tag
    · simp [lookup, hs]
    · have hrest : rest.any (fun op => op.symbol = tag) = true := by
        simp only [List.any_cons, Bool.or_eq_true, decide_eq_true_eq] at h
        tauto
      simp only [List.map_cons, if_neg hs, lookup, if_neg hs]
      exact ih hrest

/-- Appending a fresh entry resolves its tag when no earlier entry has it. -/
lemma lookup_append_fresh (t : List sOperation) (tag : Char)
    (cb : Int → Int → Int) (h : ∀ op ∈ t, op.symbol ≠ tag) :
    lookup (t ++ [⟨tag, cb⟩]) tag = some cb := by
  induction t with
  | nil => simp [lookup]
  | cons op rest ih =>
    simp only [List.cons_append, lookup, if_neg (h op (by simp))]
    exact ih (fun o ho => h o (by simp [ho]))

/-- After `register tag cb`, looking the tag up yields exactly `cb`. -/
lemma lookup_register_self (t : List sOperation) (tag : Char)
    (cb : Int → Int → Int) :
    lookup (register tag cb t) tag = some cb := by
  unfold register
  by_cases h : t.any (fun op => op.symbol = tag) = true
  · rw [if_pos h]
    exact lookup_map_overwrite t tag cb h
  · rw [if_neg h]
    refine lookup_append_fresh t tag cb ?_
    intro op hop hsym
    exact h (List.any_eq_true.mpr ⟨op, hop, by simp [hsym]⟩)

/-- Appending an entry for a different tag never changes what a tag
resolves to. -/
lemma lookup_append_other (t : List sOperation) (tag tag' : Char)
    (cb : Int → Int → Int) (h : tag' ≠ tag) :
    lookup (t ++ [⟨tag', cb⟩]) tag = lookup t tag := by
  induction t with
  | nil => simp [lookup, h]
  | cons op rest ih =>
    simp only [List.cons_append, lookup]
    by_cases ht : op.symbol = tag
    · simp [ht]
    · simp only [if_neg ht]
      exact ih

/-- Registering a different tag never changes what a tag resolves to. -/
lemma lookup_register_other (t : List sOperation) (tag tag' : Char)
    (cb : Int → Int → Int) (h : tag' ≠ tag) :
    lookup (register tag' cb t) tag = lookup t tag := by
  unfold register
  by_cases hany : t.any (fun op => op.symbol = tag') = true
  · rw [if_pos hany]
    clear hany
    induction t with
    | nil => rfl
    | cons op rest ih =>
      by_cases hs : op.symbol = tag'
      · simp only [List.map_cons, if_pos hs, lookup, if_neg h]
        rw [if_neg (by rw [hs]; exact h)]
        exact ih
      · simp only [List.map_cons, if_neg hs, lookup]
        by_cases ht : op.symbol = tag
        · simp [ht]
        · simp only [if_neg ht]
          exact ih
  · rw [if_neg hany]
    exact lookup_append_other t tag tag' cb h

/-- A batch of later `register` calls, none of them for `tag`, leaves the
resolution of `tag` untouched. -/
lemma lookup_registerAll_other (regs : List (Char × (Int → Int → Int)))
    (t : List sOperation) (tag : Char) (h : ∀ e ∈ regs, e.1 ≠ tag) :
    lookup (registerAll regs t) tag = lookup t tag := by
  induction regs generalizing t with
  | nil => rfl
  | cons e rest ih =>
    have hstep : registerAll (e :: rest) t = registerAll rest (register e.1 e.2 t) := rfl
    rw [hstep, ih (register e.1 e.2 t) (fun e' he' => h e' (by simp [he']))]
    exact lookup_register_other t tag e.1 e.2 (h e (by simp))

/-- C4: on the concrete table in the code, `evaluateStruct` dispatches
`'+'` to `add` and `'-'` to `sub`; and in general, after
`register(tag, cb)` with no later overwrite of that tag, `dispatch`
invokes exactly `cb` and returns `cb(args)`. -/
theorem dispatch_correct :
    (∀ a b : Int, evaluateStruct '+' a b = add a b) ∧
    (∀ a b : Int, evaluateStruct '-' a b = sub a b) ∧
    (∀ (table : List sOperation) (tag : Char) (cb : Int → Int → Int)
       (later : List (Char × (Int → Int → Int))) (a b : Int),
       (∀ e ∈ later, e.1 ≠ tag) →
       dispatch (registerAll later (register tag cb table)) tag a b =
         .ok (cb a b)) := by
  refine ⟨fun a b => rfl, fun a b => rfl, ?_⟩
  intro table tag cb later a b h
  unfold dispatch
  rw [lookup_registerAll_other later (register tag cb table) tag h,
    lookup_register_self]

theorem dispatch_correct_witness :
    evaluateStruct '+' 5 6 = add 5 6 ∧
    evaluateStruct '-' 5 6 = sub 5 6 ∧
    (∀ e ∈ [('-', sub)], e.1 ≠ '*') ∧
    dispatch (registerAll [('-', sub)] (register '*' (fun a b => a * b) operations))
        '*' 5 6 = .ok ((fun a b : Int => a * b) 5 6) :=
  ⟨dispatch_correct.1 5 6, dispatch_correct.2.1 5 6, by decide,
   dispatch_correct.2.2 operations '*' (fun a b => a * b) [('-', sub)] 5 6 (by decide)⟩

/-! ## Theorems: GrowthPolicy and Vector -/

/-- The computed capacity always covers the requested minimum. -/
lemma nextCapacity_ge_min (gf es c m : Nat) : m ≤ nextCapacity gf es c m := by
  unfold nextCapacity
  by_cases h : m ≤ c
  · rw [if_pos h]
    exact h
  · rw [if_neg h]
    exact le_max_left _ _

/-- With a growth factor of at least one, growing never shrinks. -/
lemma nextCapacity_ge_current (gf es c m : Nat) (hgf : 1 ≤ gf) :
    c ≤ nextCapacity gf es c m := by
  unfold nextCapacity
  by_cases h : m ≤ c
  · rw [if_pos h]
  · rw [if_neg h]
    exact le_trans (Nat.le_mul_of_pos_right c hgf)
      (le_trans (le_max_right es _) (le_max_right m _))

/-- C5: `next_capacity` returns `current` unchanged when it already covers
the minimum, and `max(minimum, current * growth_factor)` otherwise (with
the one-element floor `elemSize` kicking in only below the minimum); the
result always covers the minimum, and the function is deterministic. -/
theorem nextCapacity_spec (gf es c m : Nat) :
    (m ≤ c → nextCapacity gf es c m = c) ∧
    (c < m → es ≤ m → nextCapacity gf es c m = max m (c * gf)) ∧
    (c < m → es ≤ nextCapacity gf es c m) ∧
    m ≤ nextCapacity gf es c m ∧
    ∀ c' m', c = c' → m = m' → nextCapacity gf es c m = nextCapacity gf es c' m' := by
  refine ⟨?_, ?_, ?_, nextCapacity_ge_min gf es c m, ?_⟩
  · intro h
    rw [nextCapacity, if_pos h]
  · intro h hes
    rw [nextCapacity, if_neg (not_le.mpr h), ← max_assoc, max_eq_left hes]
  · intro h
    rw [nextCapacity, if_neg (not_le.mpr h)]
    exact le_trans (le_max_left es _) (le_max_right m _)
  · rintro c' m' rfl rfl
    rfl

theorem nextCapacity_spec_witness :
    ((3 : Nat) ≤ 7 ∧ nextCapacity 2 1 7 3 = 7) ∧
    ((2 : Nat) < 5 ∧ (1 : Nat) ≤ 5 ∧ nextCapacity 2 1 2 5 = max 5 (2 * 2)) ∧
    ((2 : Nat) < 5 ∧ (1 : Nat) ≤ nextCapacity 2 1 2 5) ∧
    (5 : Nat) ≤ nextCapacity 2 1 2 5 ∧
    nextCapacity 2 1 2 5 = nextCapacity 2 1 2 5 :=
  ⟨⟨by decide, (nextCapacity_spec 2 1 7 3).1 (by decide)⟩,
   ⟨by decide, by decide, (nextCapacity_spec 2 1 2 5).2.1 (by decide) (by decide)⟩,
   ⟨by decide, (nextCapacity_spec 2 1 2 5).2.2.1 (by decide)⟩,
   (nextCapacity_spec 2 1 2 5).2.2.2.1,
   (nextCapacity_spec 2 1 2 5).2.2.2.2 2 5 rfl rfl⟩

/-- The freshly appended element reads back at index `length`. -/
lemma getElem?_append_singleton (l : List α) (x : α) : (l ++ [x])[l.length]? = some x :=
  List.getElem?_concat_length l x

/-- C6: a successful `push(v)` writes `v` at the old `length` and bumps
`length`, so reading `get(length - 1)` immediately afterwards returns
exactly `v`, whichever branch (in-place or grown) the push took. -/
theorem push_get_roundtrip (alloc : Nat → Bool) (v : Vector α) (x : α)
    (h : (v.push alloc x).1 = .ok) :
    ((v.push alloc x).2).get (((v.push alloc x).2).length - 1) = some x := by
  unfold Vector.push
  by_cases hc : v.length < v.capacity
  · rw [if_pos hc]
    simp only [Vector.get, Vector.length, List.length_append, List.length_cons,
      List.length_nil, Nat.add_sub_cancel]
    exact getElem?_append_singleton v.elems x
  · rw [if_neg hc]
    by_cases ha : alloc (nextCapacity 2 1 v.capacity (v.length + 1)) = true
    · simp only [ha, if_true]
      simp only [Vector.get, Vector.length, List.length_append, List.length_cons,
        List.length_nil, Nat.add_sub_cancel]
      exact getElem?_append_singleton v.elems x
    · exfalso
      rw [Vector.push, if_neg hc] at h
      simp only [Bool.not_eq_true] at ha
      simp [ha] at h

theorem push_get_roundtrip_witness :
    ((Vector.new : Vector Int).push (fun _ => true) 5).1 = .ok ∧
    (((Vector.new : Vector Int).push (fun _ => true) 5).2).get
        ((((Vector.new : Vector Int).push (fun _ => true) 5).2).length - 1) = some 5 :=
  ⟨by decide, push_get_roundtrip (fun _ => true) Vector.new 5 (by decide)⟩

/-- C2: when the vector is full and the allocator refuses the resize,
`push` reports `AllocationFailure` and hands back the very same vector —
same length, same elements (every `get` agrees), same capacity — so the
caller can keep using it. -/
theorem push_alloc_failure_unchanged (alloc : Nat → Bool) (v : Vector α) (x : α)
    (hfull : v.capacity ≤ v.length)
    (hfail : alloc (nextCapacity 2 1 v.capacity (v.length + 1)) = false) :
    (v.push alloc x).1 = .allocationFailure ∧
    (v.push alloc x).2 = v ∧
    ((v.push alloc x).2).length = v.length ∧
    (∀ i, ((v.push alloc x).2).get i = v.get i) ∧
    ((v.push alloc x).2).capacity = v.capacity := by
  have hnc : ¬ v.length < v.capacity := not_lt.mpr hfull
  have hpush : v.push alloc x = (.allocationFailure, v) := by
    rw [Vector.push, if_neg hnc]
    simp [hfail]
  rw [hpush]
  exact ⟨rfl, rfl, rfl, fun i => rfl, rfl⟩

theorem push_alloc_failure_unchanged_witness :
    ((Vector.new : Vector Int).capacity ≤ (Vector.new : Vector Int).length ∧
     (fun _ => false) (nextCapacity 2 1 (Vector.new : Vector Int).capacity
        ((Vector.new : Vector Int).length + 1)) = false) ∧
    (((Vector.new : Vector Int).push (fun _ => false) 5).1 = .allocationFailure ∧
     ((Vector.new : Vector Int).push (fun _ => false) 5).2 = Vector.new ∧
     (((Vector.new : Vector Int).push (fun _ => false) 5).2).length =
        (Vector.new : Vector Int).length ∧
     (∀ i, (((Vector.new : Vector Int).push (fun _ => false) 5).2).get i =
        (Vector.new : Vector Int).get i) ∧
     (((Vector.new : Vector Int).push (fun _ => false) 5).2).capacity =
        (Vector.new : Vector Int).capacity) :=
  ⟨⟨by decide, by decide⟩,
   push_alloc_failure_unchanged (fun _ => false) Vector.new 5 (by decide) (by decide)⟩

/-- C8: `pop` on an empty vector returns the empty indicator and the
vector unchanged; on a non-empty vector it removes exactly the last
element — the returned value is `get(length - 1)` — and in neither case
does `capacity` change. -/
theorem pop_spec (v : Vector α) :
    (v.length = 0 → v.pop = (none, v)) ∧
    (0 < v.length →
      (v.pop.2).length = v.length - 1 ∧
      v.pop.1 = v.get (v.length - 1) ∧
      (v.pop.1).isSome = true) ∧
    (v.pop.2).capacity = v.capacity := by
  refine ⟨?_, ?_, ?_⟩
  · intro h
    have : v.elems = [] := List.length_eq_zero.mp h
    rw [Vector.pop, if_pos (by rw [this]; rfl)]
  · intro h
    have hne : v.elems ≠ [] := by
      intro habs
      rw [Vector.length, habs] at h
      exact absurd h (by simp)
    have hemp : v.elems.isEmpty = false := by
      rw [List.isEmpty_eq_false]
      exact hne
    rw [Vector.pop, if_neg (by rw [hemp]; exact Bool.false_ne_true)]
    refine ⟨?_, ?_, ?_⟩
    · simp [Vector.length, List.length_dropLast]
    · rw [Vector.get, Vector.length]
      exact List.getLast?_eq_getElem? v.elems
    · exact List.getLast?_isSome.mpr hne
  · by_cases hemp : v.elems.isEmpty = true
    · rw [Vector.pop, if_pos hemp]
    · rw [Vector.pop, if_neg (by rw [Bool.not_eq_true] at hemp ⊢; exact hemp)]

theorem pop_spec_witness :
    ((Vector.new : Vector Int).length = 0 ∧
      (Vector.new : Vector Int).pop = (none, Vector.new)) ∧
    (0 < (⟨[1, 2, 3], 4⟩ : Vector Int).length ∧
      ((⟨[1, 2, 3], 4⟩ : Vector Int).pop.2).length =
          (⟨[1, 2, 3], 4⟩ : Vector Int).length - 1 ∧
      (⟨[1, 2, 3], 4⟩ : Vector Int).pop.1 =
          (⟨[1, 2, 3], 4⟩ : Vector Int).get ((⟨[1, 2, 3], 4⟩ : Vector Int).length - 1) ∧
      ((⟨[1, 2, 3], 4⟩ : Vector Int).pop.1).isSome = true) ∧
    ((⟨[1, 2, 3], 4⟩ : Vector Int).pop.2).capacity =
        (⟨[1, 2, 3], 4⟩ : Vector Int).capacity :=
  ⟨⟨by decide, (pop_spec (Vector.new : Vector Int)).1 (by decide)⟩,
   ⟨by decide, (pop_spec (⟨[1, 2, 3], 4⟩ : Vector Int)).2.1 (by decide)⟩,
   (pop_spec (⟨[1, 2, 3], 4⟩ : Vector Int)).2.2⟩

/-- One `push` step in a sequence. -/
lemma pushSeq_cons (alloc : Nat → Bool) (v : Vector α) (x : α) (xs : List α) :
    v.pushSeq alloc (x :: xs) = ((v.push alloc x).2).pushSeq alloc xs := rfl

/-- Splitting a push sequence. -/
lemma pushSeq_append (alloc : Nat → Bool) (v : Vector α) (l₁ l₂ : List α) :
    v.pushSeq alloc (l₁ ++ l₂) = (v.pushSeq alloc l₁).pushSeq alloc l₂ := by
  simp [Vector.pushSeq, List.foldl_append]

/-- A single `push` never decreases capacity, whether it stays in place,
grows, or fails. -/
lemma push_capacity_mono (alloc : Nat → Bool) (v : Vector α) (x : α) :
    v.capacity ≤ ((v.push alloc x).2).capacity := by
  rw [Vector.push]
  by_cases hc : v.length < v.capacity
  · rw [if_pos hc]
  · rw [if_neg hc]
    by_cases ha : alloc (nextCapacity 2 1 v.capacity (v.length + 1)) = true
    · simp only [ha, if_true]
      exact nextCapacity_ge_current 2 1 v.capacity (v.length + 1) (by decide)
    · simp only [Bool.not_eq_true] at ha
      simp [ha]

/-- A single `push` preserves `length ≤ capacity`. -/
lemma push_length_le_capacity (alloc : Nat → Bool) (v : Vector α) (x : α)
    (h : v.length ≤ v.capacity) :
    ((v.push alloc x).2).length ≤ ((v.push alloc x).2).capacity := by
  rw [Vector.push]
  by_cases hc : v.length < v.capacity
  · rw [if_pos hc]
    rw [Vector.length] at hc
    simp only [Vector.length, List.length_append, List.length_cons, List.length_nil]
    omega
  · rw [if_neg hc]
    by_cases ha : alloc (nextCapacity 2 1 v.capacity (v.length + 1)) = true
    · simp only [ha, if_true]
      have hmin := nextCapacity_ge_min 2 1 v.capacity (v.length + 1)
      rw [Vector.length] at hmin
      simp only [Vector.length, List.length_append, List.length_cons, List.length_nil]
      omega
    · simp only [Bool.not_eq_true] at ha
      simpa [ha] using h

/-- Across any sequence of pushes, capacity never decreases. -/
lemma pushSeq_capacity_mono (alloc : Nat → Bool) (xs : List α) (v : Vector α) :
    v.capacity ≤ (v.pushSeq alloc xs).capacity := by
  induction xs generalizing v with
  | nil => exact le_refl _
  | cons x rest ih =>
    rw [pushSeq_cons]
    exact le_trans (push_capacity_mono alloc v x) (ih _)

/-- The invariant `length ≤ capacity` is preserved by any push sequence. -/
lemma pushSeq_invariant (alloc : Nat → Bool) (xs : List α) (v : Vector α)
    (h : v.length ≤ v.capacity) :
    (v.pushSeq alloc xs).length ≤ (v.pushSeq alloc xs).capacity := by
  induction xs generalizing v with
  | nil => exact h
  | cons x rest ih =>
    rw [pushSeq_cons]
    exact ih _ (push_length_le_capacity alloc v x h)

/-- C7: starting from any state satisfying `length ≤ capacity` (so in
particular from `new()`), a sequence of pushes never decreases capacity —
globally and at every single step — and every state it reaches satisfies
`length ≤ capacity`, equivalently `length * element_size ≤
capacity * element_size = capacity_bytes` for every element size. -/
theorem pushSeq_capacity_invariant (alloc : Nat → Bool) (xs : List α) (v : Vector α)
    (hinv : v.length ≤ v.capacity) :
    v.capacity ≤ (v.pushSeq alloc xs).capacity ∧
    (v.pushSeq alloc xs).length ≤ (v.pushSeq alloc xs).capacity ∧
    (∀ n : Nat, (v.pushSeq alloc (xs.take n)).capacity ≤
        (v.pushSeq alloc (xs.take (n + 1))).capacity) ∧
    ∀ es : Nat, (v.pushSeq alloc xs).length * es ≤ (v.pushSeq alloc xs).capacity * es := by
  refine ⟨pushSeq_capacity_mono alloc xs v, pushSeq_invariant alloc xs v hinv, ?_, ?_⟩
  · intro n
    rw [List.take_succ, pushSeq_append]
    cases hx : xs[n]? with
    | none => simp [Vector.pushSeq]
    | some a =>
      have hstep : (v.pushSeq alloc (xs.take n)).pushSeq alloc (some a).toList =
          ((v.pushSeq alloc (xs.take n)).push alloc a).2 := rfl
      rw [hstep]
      exact push_capacity_mono alloc _ a
  · intro es
    exact mul_le_mul_right' (pushSeq_invariant alloc xs v hinv) es

theorem pushSeq_capacity_invariant_witness :
    (Vector.new : Vector Int).length ≤ (Vector.new : Vector Int).capacity ∧
    ((Vector.new : Vector Int).capacity ≤
        ((Vector.new : Vector Int).pushSeq (fun _ => true) [1, 2, 3]).capacity ∧
     ((Vector.new : Vector Int).pushSeq (fun _ => true) [1, 2, 3]).length ≤
        ((Vector.new : Vector Int).pushSeq (fun _ => true) [1, 2, 3]).capacity ∧
     (∀ n : Nat, ((Vector.new : Vector Int).pushSeq (fun _ => true)
          ([1, 2, 3].take n)).capacity ≤
        ((Vector.new : Vector Int).pushSeq (fun _ => true)
          ([1, 2, 3].take (n + 1))).capacity) ∧
     ∀ es : Nat, ((Vector.new : Vector Int).pushSeq (fun _ => true) [1, 2, 3]).length * es ≤
        ((Vector.new : Vector Int).pushSeq (fun _ => true) [1, 2, 3]).capacity * es) :=
  ⟨by decide, pushSeq_capacity_invariant (fun _ => true) [1, 2, 3] Vector.new (by decide)⟩

end CPointerLab
